import Mathlib

/-!
Verification of the streaming-chat client of `rag-simple`
(`src/apps/frontend/lib/api.ts` and
`src/apps/frontend/components/chat/chat-app.tsx`).

Shallow embedding conventions:
* JavaScript strings are `String`; the SSE byte decoder works over `List Char`
  so that chunk concatenation is plain list append.
* Timestamps (`createdAt`, `lastUpdatedAt`, `pinnedAt`) are represented by the
  integer value `Date.parse` would return for the stored ISO string; `null`
  becomes `Option.none`.  The helper `timestamp` mirrors
  `value ? Date.parse(value) : 0`.
* JSON values already decoded by the platform are represented by the inductive
  `JVal`; fallible platform calls (`response.json()`, `response.text()`) are
  `Option`-valued fields of the response model.
* React state updates performed by the handlers are modelled as pure state
  transformers; the results of backend calls that a handler awaits are passed
  in as explicit `Except` parameters (the handler's behaviour is a function of
  those outcomes).
-/

/-- Model of a JSON value as decoded by `JSON.parse` / `response.json()`. -/
inductive JVal where
  | str (s : String)
  | num (n : Int)
  | boolean (b : Bool)
  | null
  | arr (xs : List JVal)
  | obj (fs : List (String × JVal))

/-- Field access `data?.k` on a decoded JSON value: only objects have fields. -/
def jField : JVal → String → Option JVal
  | .obj fs, k => (fs.find? (fun p => decide (p.1 = k))).map (fun p => p.2)
  | _, _ => none

/-- Mirrors `typeof data?.k === "string" ? data.k : undefined`. -/
def jStrField (v : JVal) (k : String) : Option String :=
  match jField v k with
  | some (.str s) => some s
  | _ => none

/-- The `details` payload attached to an `ApiError` by `parseError`. -/
inductive ErrDetails where
  | json (v : JVal)
  | text (s : String)
  | nullDetail

/-- Model of the `ApiError` class of `api.ts`: message, HTTP status, details. -/
structure ApiFailure where
  message : String
  status : Nat
  details : ErrDetails

/-- Model of a `fetch` `Response`.  `jsonBody`/`textBody` are `none` when the
corresponding body-reading promise would reject. -/
structure HttpResponse where
  status : Nat
  statusText : String
  contentType : Option String
  jsonBody : Option JVal
  textBody : Option String

/-- Mirrors `response.ok`: status in the inclusive range 200–299. -/
def responseOk (r : HttpResponse) : Bool :=
  decide (200 ≤ r.status) && decide (r.status ≤ 299)

/-- Mirrors `s.includes(pat)` for JavaScript strings. -/
def jsIncludes (s pat : String) : Bool :=
  s.toList.tails.any (fun t => pat.toList.isPrefixOf t)

/-- Shallow embedding of `parseError` from `api.ts`: derive a human-readable
message and a diagnostics payload from a non-2xx response. -/
def parseError (r : HttpResponse) : String × ErrDetails :=
  if jsIncludes (r.contentType.getD "") "application/json" then
    match r.jsonBody with
    | some data =>
        let message :=
          match jStrField data "detail" with
          | some s => s
          | none =>
              match jStrField data "message" with
              | some s => s
              | none => r.statusText
        (message, .json data)
    | none => (r.statusText, .nullDetail)
  else
    match r.textBody with
    | some t => ((if t = "" then r.statusText else t), .text t)
    | none => (r.statusText, .nullDetail)

/-- Failure channel of `requestJson`: either a thrown `ApiError`, or the
rejection of the final `response.json()` on a 2xx body that is not JSON. -/
inductive ReqFailure where
  | api (e : ApiFailure)
  | decodeFailure

/-- Shallow embedding of `requestJson` from `api.ts` (the response-handling
half shared by `getJson`, `postJson`, `patchJson`, `putJson`, `deleteJson` and
`uploadFile`): non-2xx throws an `ApiError` built by `parseError`; a 204
success returns `null` (here `none`); otherwise the decoded JSON body. -/
def requestJson (r : HttpResponse) : Except ReqFailure (Option JVal) :=
  if responseOk r = false then
    let pe := parseError r
    .error (.api { message := pe.1, status := r.status, details := pe.2 })
  else if r.status = 204 then
    .ok none
  else
    match r.jsonBody with
    | some v => .ok (some v)
    | none => .error .decodeFailure

/-! ## SSE decoder (`streamSSE` in `api.ts`) -/

/-- Split on the two-character blank-line separator, mirroring
`buffer.split("\n\n")` of JavaScript (left-to-right, non-overlapping;
always returns at least one piece). -/
def splitBlocks : List Char → List (List Char)
  | [] => [[]]
  | '\n' :: '\n' :: rest => [] :: splitBlocks rest
  | c :: rest =>
      match splitBlocks rest with
      | [] => [[c]]
      | h :: t => (c :: h) :: t

/-- Complete blocks plus trailing remainder, the combination
`(chunks = buffer.split("\n\n"); buffer = chunks.pop())` computes.
Proof vehicle for `splitBlocks`. -/
def blocksOf : List Char → List (List Char) × List Char
  | [] => ([], [])
  | '\n' :: '\n' :: rest =>
      let p := blocksOf rest
      ([] :: p.1, p.2)
  | c :: rest =>
      let p := blocksOf rest
      match p.1 with
      | [] => ([], c :: p.2)
      | h :: t => ((c :: h) :: t, p.2)

/-- Split on a single newline, mirroring `chunk.split("\n")`. -/
def splitLines : List Char → List (List Char)
  | [] => [[]]
  | '\n' :: rest => [] :: splitLines rest
  | c :: rest =>
      match splitLines rest with
      | [] => [[c]]
      | h :: t => (c :: h) :: t

/-- Mirrors JavaScript `String.prototype.trim` on the character list. -/
def jsTrim (s : List Char) : List Char :=
  ((s.dropWhile Char.isWhitespace).reverse.dropWhile Char.isWhitespace).reverse

/-- Payload of a decoded SSE event: parsed JSON if `JSON.parse` succeeded on a
non-empty data string, otherwise the raw text. -/
inductive SSEData (J : Type) where
  | json (v : J)
  | text (s : List Char)
deriving DecidableEq

/-- A decoded server-sent event: `{ event: name, data: payload }`. -/
structure SSEvt (J : Type) where
  name : List Char
  data : SSEData J
deriving DecidableEq

/-- Shallow embedding of the per-block decoding loop of `streamSSE`: lines
prefixed `event:` set the event name (default `"message"`), lines prefixed
`data:` contribute their trimmed remainder, newline-joined; the data string is
parsed by `parse` (the `JSON.parse` oracle) if non-empty, else passed through
as text. -/
def blockEvent {J : Type} (parse : List Char → Option J) (block : List Char) :
    SSEvt J :=
  let step := fun (acc : List Char × List (List Char)) (line : List Char) =>
    if ("event:".toList).isPrefixOf line then (jsTrim (line.drop 6), acc.2)
    else if ("data:".toList).isPrefixOf line then
      (acc.1, acc.2 ++ [jsTrim (line.drop 5)])
    else acc
  let r := (splitLines block).foldl step ("message".toList, [])
  let dataString := List.intercalate ['\n'] r.2
  if dataString = [] then ⟨r.1, .text dataString⟩
  else
    match parse dataString with
    | some v => ⟨r.1, .json v⟩
    | none => ⟨r.1, .text dataString⟩

/-- Decoder state: the held-back partial block and the events emitted so far. -/
structure SSEState (J : Type) where
  buffer : List Char
  events : List (SSEvt J)
deriving DecidableEq

/-- Shallow embedding of one iteration of the `streamSSE` read loop: append
the freshly decoded chunk to the buffer, split on blank lines, hold back the
last (possibly incomplete) piece, emit one event per complete block. -/
def sseFeed {J : Type} (parse : List Char → Option J) (st : SSEState J)
    (chunk : List Char) : SSEState J :=
  let parts := splitBlocks (st.buffer ++ chunk)
  { buffer := parts.getLastD [],
    events := st.events ++ (parts.dropLast).map (blockEvent parse) }

/-- The full read loop of `streamSSE` over the sequence of received chunks,
starting from an empty buffer. -/
def sseRun {J : Type} (parse : List Char → Option J)
    (chunks : List (List Char)) : SSEState J :=
  chunks.foldl (sseFeed parse) ⟨[], []⟩

/-- Modelled from the spec's decoding rule, for comparison with `sseRun`: the
events of a byte sequence are the decodings of its complete blank-line-
delimited blocks, the trailing partial block producing nothing. -/
def sseDecodeSpec {J : Type} (parse : List Char → Option J)
    (input : List Char) : List (SSEvt J) :=
  ((splitBlocks input).dropLast).map (blockEvent parse)

/-! ## Data model (`chat-app.tsx` types) -/

/-- Mirrors `String.prototype.trim` for `String`, via the character list
(kernel-reducible, unlike `String.trim`). -/
def jsTrimStr (s : String) : String :=
  ⟨jsTrim s.toList⟩

/-- Message role. -/
inductive Role where
  | user
  | assistant
deriving DecidableEq

/-- A citation carried by a backend message (`attachmentId` is
`number | string` in the source). -/
structure Citation where
  attachmentId : Sum Int String
  page : Option Int
deriving DecidableEq

/-- A ranked evidence excerpt carried by a backend message. -/
structure Evidence where
  attachmentId : Sum Int String
  page : Option Int
  excerpt : Option String
  filename : Option String
  rank : Option Int
deriving DecidableEq

/-- Metadata attached to a backend message.  `confidence` is carried opaquely
as an integer. -/
structure MsgMeta where
  answerMode : Option String
  verdict : Option String
  confidence : Option Int
  warning : Option String
deriving DecidableEq

/-- The empty metadata object `{}` used by `payload.meta ?? {}`. -/
def emptyMeta : MsgMeta :=
  { answerMode := none, verdict := none, confidence := none, warning := none }

/-- Frontend `Message` record. -/
structure Message where
  id : Option String
  role : Role
  content : String
  createdAt : Option Int
  isStreaming : Option Bool
  useDocs : Option Bool
  citations : Option (List Citation)
  evidence : Option (List Evidence)
  meta : Option MsgMeta
  warning : Option String
deriving DecidableEq

/-- `BackendMessage` payload as received from the server. -/
structure BackendMessage where
  id : String
  role : Role
  content : String
  createdAt : Int
  useDocs : Option Bool
  citations : Option (List Citation)
  evidence : Option (List Evidence)
  meta : Option MsgMeta
  warning : Option String
deriving DecidableEq

/-- Shallow embedding of `normalizeMessage` from `chat-app.tsx`. -/
def normalizeMessage (payload : BackendMessage) : Message :=
  { id := some payload.id,
    role := payload.role,
    content := payload.content,
    createdAt := some payload.createdAt,
    isStreaming := none,
    useDocs := payload.useDocs,
    citations := some (payload.citations.getD []),
    evidence := some (payload.evidence.getD []),
    meta := some (payload.meta.getD emptyMeta),
    warning := payload.warning }

/-- Attachment type tag (`type` in the source; `doc` is the fallback). -/
inductive AttachKind where
  | pdf
  | txt
  | doc
  | docx
deriving DecidableEq

/-- Frontend `Attachment` record (`kind` models the `type` field). -/
structure Attachment where
  id : String
  name : String
  kind : AttachKind
  url : String
  createdAt : Option Int
deriving DecidableEq

/-- Frontend `Conversation` record.  Timestamp strings are represented by
their `Date.parse` values; `pinnedAt`/`pinnedOrder` are `none` when `null`. -/
structure Conversation where
  id : String
  title : String
  messages : List Message
  attachments : List Attachment
  createdAt : Int
  lastUpdatedAt : Int
  isPinned : Bool
  pinnedAt : Option Int
  pinnedOrder : Option Int
deriving DecidableEq

/-- `BackendConversation` summary payload (numeric `id`; `pinnedOrder` is
`none` whenever the field is not a number, matching the `typeof` check). -/
structure BackendConversation where
  id : Int
  title : String
  createdAt : Int
  lastUpdatedAt : Int
  isPinned : Bool
  pinnedAt : Option Int
  pinnedOrder : Option Int
deriving DecidableEq

/-- Shallow embedding of `normalizeConversation` from `chat-app.tsx`: summary
fields come from the payload, `messages`/`attachments` from the current record
when one exists. -/
def normalizeConversation (payload : BackendConversation)
    (current : Option Conversation) : Conversation :=
  { id := toString payload.id,
    title := payload.title,
    createdAt := payload.createdAt,
    lastUpdatedAt := payload.lastUpdatedAt,
    isPinned := payload.isPinned,
    pinnedAt := payload.pinnedAt,
    pinnedOrder := payload.pinnedOrder,
    messages := match current with | some c => c.messages | none => [],
    attachments := match current with | some c => c.attachments | none => [] }

/-! ## Conversation store operations -/

/-- Mirrors the `timestamp` helper `value ? Date.parse(value) : 0` under the
parsed-timestamp representation. -/
def timestamp : Option Int → Int
  | some t => t
  | none => 0

/-- `Number.MAX_SAFE_INTEGER`, the sentinel used for a missing `pinnedOrder`. -/
def maxSafeInteger : Int := 9007199254740991

/-- The comparator of `sortPinnedConversations`. -/
def pinnedCmp (a b : Conversation) : Int :=
  let aOrder := a.pinnedOrder.getD maxSafeInteger
  let bOrder := b.pinnedOrder.getD maxSafeInteger
  if aOrder ≠ bOrder then aOrder - bOrder
  else timestamp b.pinnedAt - timestamp a.pinnedAt

/-- The comparator of `sortUnpinnedConversations` (`lastUpdatedAt` and
`createdAt` are non-null strings in the source, so `timestamp` is just their
parsed value). -/
def unpinnedCmp (a b : Conversation) : Int :=
  let lastUpdated := b.lastUpdatedAt - a.lastUpdatedAt
  if lastUpdated ≠ 0 then lastUpdated
  else b.createdAt - a.createdAt

/-- Shallow embedding of `sortPinnedConversations`: filter to pinned, then the
engine's stable sort by the comparator.  `List.insertionSort` with the
non-strict comparator test is stable, hence agrees with JavaScript
`Array.prototype.sort` for this consistent comparator. -/
def sortPinnedConversations (list : List Conversation) : List Conversation :=
  List.insertionSort (fun a b => pinnedCmp a b ≤ 0)
    (list.filter (fun conversation => conversation.isPinned))

/-- Shallow embedding of `sortUnpinnedConversations`. -/
def sortUnpinnedConversations (list : List Conversation) : List Conversation :=
  List.insertionSort (fun a b => unpinnedCmp a b ≤ 0)
    (list.filter (fun conversation => !conversation.isPinned))

/-- Shallow embedding of `updateConversation`, the store's single mutation
primitive: replace the record whose id matches by the updater's output, leave
every other record untouched. -/
def updateConversation (id : String) (updater : Conversation → Conversation)
    (prev : List Conversation) : List Conversation :=
  prev.map (fun conversation =>
    if conversation.id = id then updater conversation else conversation)

/-- Lookup in `new Map(prev.map((conv) => [conv.id, conv]))`: a JavaScript
`Map` built from an entry list keeps the last value written for a key. -/
def jsMapGet (prev : List Conversation) (id : String) : Option Conversation :=
  (prev.filter (fun conv => conv.id = id)).getLast?

/-- Shallow embedding of `syncConversations` (the store update it performs):
the new store is the payload in payload order, each summary normalized
against the previous record with the same id when one exists. -/
def syncConversations (payload : List BackendConversation)
    (prev : List Conversation) : List Conversation :=
  payload.map (fun item => normalizeConversation item (jsMapGet prev (toString item.id)))

/-! ## Stream session machine (`handleSendMessage` / `handleStopStreaming`)

The streaming send path is modelled per conversation: the projection of the
React state touched by one send (`messages` and `lastUpdatedAt` of the
conversation record, the `streamingByConversation` entry, the two per-id
refs), plus observable outputs (toasts shown, backend calls issued).  Events
delivered by the stream and user stop actions are interleaved in a step list;
results of the backend calls the handler awaits are explicit parameters. -/

/-- Backend calls the failure-recovery path can issue, in issue order. -/
inductive SessCall where
  | reloadMessages
  | fallbackSend
deriving DecidableEq

/-- Per-conversation projection of the manager's state. -/
structure ConvState where
  messages : List Message
  lastUpdatedAt : Int
  streaming : Option String
  abortRequested : Bool
  hasController : Bool
  toasts : List String
  calls : List SessCall
deriving DecidableEq

/-- Stream events as dispatched by the read loop of `handleSendMessage`.
`deltaEvt` carries `event.data.delta` (`none` models a present-but-null
field, defaulted by `?? ""`); a `message.delta` event whose data has no
`delta` member at all is skipped by the `"delta" in event.data` guard and
is modelled by `otherEvt`. -/
inductive SEvent where
  | statusEvt
  | deltaEvt (d : Option String)
  | finalEvt (m : BackendMessage)
  | errorEvt (msg : Option String)
  | otherEvt (name : String)
deriving DecidableEq

/-- One scheduling step during the read loop: a stream event is consumed, or
the user presses stop (the stop action carries the placeholder id and clock
value sampled when it runs). -/
inductive SessStep where
  | ev (e : SEvent)
  | stop (uuid : String) (now : Int)
deriving DecidableEq

/-- How the stream terminates after the listed steps: normal completion, an
`AbortError` rejection (cancellation), or any other transport rejection. -/
inductive EndKind where
  | normal
  | abortSignal
  | transportFailure
deriving DecidableEq

/-- Loop-local flags of `handleSendMessage` alongside the conversation
state. -/
structure LoopState where
  conv : ConvState
  finalReceived : Bool
  hadStreamError : Bool
  wasAborted : Bool
deriving DecidableEq

/-- The optimistic user message inserted at send time (placeholder id
`tmp-<uuid>`). -/
def optimisticUserMessage (uuid content : String) (now : Int) : Message :=
  { id := some ("tmp-" ++ uuid), role := .user, content := content,
    createdAt := some now, isStreaming := none, useDocs := none,
    citations := none, evidence := none, meta := none, warning := none }

/-- The assistant message committed by `handleStopStreaming` from partial
content. -/
def stopAssistantMessage (uuid content : String) (now : Int) : Message :=
  { id := some ("tmp-" ++ uuid), role := .assistant, content := content,
    createdAt := some now, isStreaming := none, useDocs := none,
    citations := none, evidence := none, meta := none, warning := none }

/-- Shallow embedding of `handleStopStreaming` for the active conversation:
request abort, commit the partial content as a final assistant message when
its trim is non-empty, abort and drop the controller, discard the session
entry. -/
def handleStopStreaming (st : ConvState) (uuid : String) (now : Int) :
    ConvState :=
  let st1 : ConvState := { st with abortRequested := true }
  let partialContent := st1.streaming.getD ""
  let st2 : ConvState :=
    if jsTrimStr partialContent ≠ "" then
      { st1 with messages :=
          st1.messages ++ [stopAssistantMessage uuid partialContent now] }
    else st1
  let st3 : ConvState :=
    if st2.hasController then { st2 with hasController := false } else st2
  { st3 with streaming := none }

/-- Effect of one non-throwing stream event in the read loop. -/
def loopEventStep (st : LoopState) (e : SEvent) : LoopState :=
  match e with
  | .statusEvt =>
      let conv := st.conv
      let keep : Bool :=
        match conv.streaming with
        | some s => decide (0 < s.length)
        | none => false
      if keep then st else { st with conv := { conv with streaming := some "" } }
  | .deltaEvt d =>
      let conv := st.conv
      let current := conv.streaming.getD ""
      { st with conv := { conv with streaming := some (current ++ d.getD "") } }
  | .finalEvt m =>
      let conv := st.conv
      let warningToasts :=
        match m.warning with
        | some w => if w ≠ "" then [w] else []
        | none => []
      { st with
        conv := { conv with
          messages := conv.messages ++ [normalizeMessage m],
          toasts := conv.toasts ++ warningToasts,
          streaming := none },
        finalReceived := true }
  | .errorEvt _ => st
  | .otherEvt _ => st

/-- Effect of the `catch` block of the read loop: classify the exception
(`AbortError` versus anything else), discard the session entry, toast on a
genuine failure. -/
def catchFailure (st : LoopState) (isAbort : Bool) : LoopState :=
  let conv := st.conv
  { st with
    conv := { conv with
      streaming := none,
      toasts := conv.toasts ++ (if isAbort then [] else ["Streaming failed."]) },
    wasAborted := isAbort,
    hadStreamError := !isAbort }

/-- Shallow embedding of the `for await` read loop: before consuming an event
the abort flag is checked (a requested abort breaks out, ignoring the event
and everything after it); an `error` stream event throws, landing in the
catch block; a stop action runs `handleStopStreaming` between suspensions;
when the steps are exhausted the stream terminates per `ending`. -/
def runLoop : LoopState → List SessStep → EndKind → LoopState
  | st, [], ending =>
      match ending with
      | .normal => st
      | .abortSignal => catchFailure st true
      | .transportFailure => catchFailure st false
  | st, .stop uuid now :: rest, ending =>
      runLoop { st with conv := handleStopStreaming st.conv uuid now } rest ending
  | st, .ev e :: rest, ending =>
      if st.conv.abortRequested then { st with wasAborted := true }
      else
        match e with
        | .errorEvt _ => catchFailure st false
        | _ => runLoop (loopEventStep st e) rest ending

/-- Result of the non-streaming `handleSendMessageNonStreaming` call: created
messages plus an optional warning (which it toasts itself). -/
structure NonStreamingResult where
  messages : List BackendMessage
  warning : Option String

/-- Shallow embedding of everything after the read loop of
`handleSendMessage`: clear the session entry when no final arrived, drop the
per-id refs, then return on abort / run the reload-then-fallback recovery on
failure / reload on success.  `reload1`, `fallback`, `reload2`, `reload3` are
the outcomes of the backend calls awaited on the respective paths. -/
def afterLoop (st : LoopState) (previousCount : Nat)
    (reload1 : Except Unit (List BackendMessage))
    (fallback : Except Unit NonStreamingResult)
    (reload2 reload3 : Except Unit (List BackendMessage)) : ConvState :=
  let conv0 := st.conv
  let conv1 : ConvState :=
    if st.finalReceived then conv0 else { conv0 with streaming := none }
  let conv2 : ConvState := { conv1 with hasController := false, abortRequested := false }
  if st.wasAborted then conv2
  else if st.hadStreamError then
    let conv3 : ConvState := { conv2 with calls := conv2.calls ++ [SessCall.reloadMessages] }
    match reload1 with
    | .error _ => { conv3 with toasts := conv3.toasts ++ ["Unable to send message."] }
    | .ok latest =>
        let conv4 : ConvState := { conv3 with messages := latest.map normalizeMessage }
        if latest.length ≤ previousCount then
          let conv5 : ConvState := { conv4 with calls := conv4.calls ++ [SessCall.fallbackSend] }
          match fallback with
          | .error _ => { conv5 with toasts := conv5.toasts ++ ["Unable to send message."] }
          | .ok fb =>
              let warningToasts :=
                match fb.warning with
                | some w => if w ≠ "" then [w] else []
                | none => []
              let conv6 : ConvState := { conv5 with toasts := conv5.toasts ++ warningToasts }
              let conv7 : ConvState := { conv6 with calls := conv6.calls ++ [SessCall.reloadMessages] }
              match reload2 with
              | .error _ => { conv7 with toasts := conv7.toasts ++ ["Unable to send message."] }
              | .ok l2 => { conv7 with messages := l2.map normalizeMessage }
        else conv4
  else
    let conv3 : ConvState := { conv2 with calls := conv2.calls ++ [SessCall.reloadMessages] }
    match reload3 with
    | .error _ => conv3
    | .ok latest => { conv3 with messages := latest.map normalizeMessage }

/-- The synchronous prefix of the streaming send (after the emptiness check):
capture `previousMessageCount`, insert the optimistic user message, create the
empty session entry, clear the abort flag, install a fresh controller.  Note
that no check of an existing session entry is performed. -/
def sendBegin (conv : ConvState) (trimmed uuid : String) (now : Int) : ConvState :=
  { conv with
    messages := conv.messages ++ [optimisticUserMessage uuid trimmed now],
    lastUpdatedAt := now,
    streaming := some "",
    abortRequested := false,
    hasController := true }

/-- The loop state right after `sendBegin`, all loop-local flags cleared. -/
def beginLoopState (conv : ConvState) (content uuid : String) (now : Int) :
    LoopState :=
  { conv := sendBegin conv (jsTrimStr content) uuid now,
    finalReceived := false, hadStreamError := false, wasAborted := false }

/-- Shallow embedding of the streaming path of `handleSendMessage` (the
streaming feature flag enabled): begin the send, drive the read loop over the
given step interleaving and terminal outcome, then run the post-loop
reconciliation. -/
def handleSendStreaming (conv : ConvState) (content uuid : String) (now : Int)
    (steps : List SessStep) (ending : EndKind)
    (reload1 : Except Unit (List BackendMessage))
    (fallback : Except Unit NonStreamingResult)
    (reload2 reload3 : Except Unit (List BackendMessage)) : ConvState :=
  if jsTrimStr content = "" then conv
  else
    afterLoop (runLoop (beginLoopState conv content uuid now) steps ending)
      conv.messages.length reload1 fallback reload2 reload3

/-! ## Optimistic rename / pin-toggle (`handleRenameConversation`,
`handleTogglePin`) -/

/-- The toast chosen by the catch block of `handleTogglePin`: the pin-limit
rejection is recognized by `error instanceof ApiError && error.status === 400`,
never by the failure's message text. -/
def pinFailureToast (e : ReqFailure) : String :=
  match e with
  | .api a => if a.status = 400 then "Max 5 pinned conversations" else "Unable to update pin."
  | .decodeFailure => "Unable to update pin."

/-- Shallow embedding of `handleRenameConversation`: trim the title (empty is
a no-op), capture the found record, apply the optimistic title, then reconcile
with the backend result — authoritative normalize on success, restore the
captured record plus one toast on failure.  Returns the new store and the
toasts shown. -/
def handleRenameConversation (conversations : List Conversation)
    (id title : String) (result : Except ReqFailure BackendConversation) :
    List Conversation × List String :=
  let nextTitle := jsTrimStr title
  if nextTitle = "" then (conversations, [])
  else
    match conversations.find? (fun item => item.id = id) with
    | none => (conversations, [])
    | some previous =>
        let optimistic :=
          updateConversation id (fun c => { c with title := nextTitle }) conversations
        match result with
        | .ok data =>
            (updateConversation id (fun c => normalizeConversation data (some c))
              optimistic, [])
        | .error _ =>
            (updateConversation id (fun _ => previous) optimistic,
              ["Failed to rename conversation."])

/-- Shallow embedding of `handleTogglePin`: capture the found record, apply
the optimistic pin flip (stamping `pinnedAt` with the current time), then
reconcile — normalize on success, restore the captured record plus exactly
one toast (chosen by `pinFailureToast`) on failure. -/
def handleTogglePin (conversations : List Conversation) (id : String)
    (now : Int) (result : Except ReqFailure BackendConversation) :
    List Conversation × List String :=
  match conversations.find? (fun item => item.id = id) with
  | none => (conversations, [])
  | some conversation =>
      let nextPinned := !conversation.isPinned
      let optimistic :=
        updateConversation id
          (fun current => { current with
            isPinned := nextPinned,
            pinnedAt := if nextPinned then some now else none })
          conversations
      match result with
      | .ok data =>
          (updateConversation id
            (fun current => normalizeConversation data (some current))
            optimistic, [])
      | .error e =>
          (updateConversation id (fun _ => conversation) optimistic,
            [pinFailureToast e])

/-! ## Concrete fixtures used by witnesses and counterexamples -/

/-- A plain assistant message used as pre-existing store content. -/
def wmsg : Message :=
  { id := some "m1", role := .assistant, content := "hello", createdAt := none,
    isStreaming := none, useDocs := none, citations := none, evidence := none,
    meta := none, warning := none }

/-- Conversation fixture with id "A". -/
def wconvA : Conversation :=
  { id := "A", title := "alpha", messages := [wmsg], attachments := [],
    createdAt := 10, lastUpdatedAt := 20, isPinned := false, pinnedAt := none,
    pinnedOrder := none }

/-- Conversation fixture with id "B". -/
def wconvB : Conversation :=
  { id := "B", title := "beta", messages := [], attachments := [],
    createdAt := 11, lastUpdatedAt := 21, isPinned := false, pinnedAt := none,
    pinnedOrder := none }

/-- Conversation fixture whose id matches backend id 7. -/
def wconv7 : Conversation :=
  { id := "7", title := "seven", messages := [wmsg], attachments := [],
    createdAt := 1, lastUpdatedAt := 2, isPinned := false, pinnedAt := none,
    pinnedOrder := none }

/-- Backend summary fixture with id 7. -/
def wbconv : BackendConversation :=
  { id := 7, title := "seven renamed", createdAt := 1, lastUpdatedAt := 5,
    isPinned := true, pinnedAt := some 4, pinnedOrder := some 1 }

/-! ## Shared helper lemmas -/

/-- Two members of a store with duplicate-free ids and the same id are the
same record. -/
theorem conv_id_unique {l : List Conversation} {c x : Conversation}
    (hnodup : (l.map (fun v => v.id)).Nodup) (hc : c ∈ l) (hx : x ∈ l)
    (h : x.id = c.id) : x = c :=
  List.inj_on_of_nodup_map hnodup hx hc h

/-- When no record matches the id, the JavaScript-map lookup misses. -/
theorem jsMapGet_eq_none {prev : List Conversation} {id : String}
    (h : ∀ c ∈ prev, c.id ≠ id) : jsMapGet prev id = none := by
  unfold jsMapGet
  rw [List.filter_eq_nil_iff.mpr (fun c hc => by simp [h c hc])]
  rfl

/-- With duplicate-free ids, the JavaScript-map lookup returns exactly the
member carrying the id. -/
theorem jsMapGet_eq_some {prev : List Conversation} {c : Conversation}
    {id : String} (hnodup : (prev.map (fun v => v.id)).Nodup)
    (hc : c ∈ prev) (hid : c.id = id) : jsMapGet prev id = some c := by
  unfold jsMapGet
  induction prev with
  | nil => cases hc
  | cons d rest ih =>
      rw [List.map_cons, List.nodup_cons] at hnodup
      rcases List.mem_cons.mp hc with hcd | hcr
      · subst hcd
        have hrest : rest.filter (fun v => decide (v.id = id)) = [] := by
          refine List.filter_eq_nil_iff.mpr (fun x hx => ?_)
          simp only [decide_eq_true_eq]
          intro hxid
          have hcx : c.id = x.id := by rw [hid, hxid]
          exact hnodup.1 (by
            rw [hcx]
            exact List.mem_map_of_mem (fun v => v.id) hx)
        simp [List.filter_cons, hid, hrest]
      · have hdid : ¬ d.id = id := by
          intro hd
          rw [← hid] at hd
          exact hnodup.1 (by
            rw [hd]
            exact List.mem_map_of_mem (fun v => v.id) hcr)
        simp only [List.filter_cons, decide_eq_true_eq]
        rw [if_neg hdid]
        exact ih hnodup.2 hcr

/-- C8: the store's single mutation primitive replaces exactly the records
whose id matches with the transform's output: the store keeps its length,
every position is the original record unless its id matches, an id absent
from the store makes the mutation a no-op (so a resolution arriving for a
deleted conversation raises no error), and for an id-preserving transform
every lookup of a different id is untouched (so a stale stream resolution
for conversation A never mutates conversation B's record). -/
theorem updateConversation_frame (cid : String)
    (f : Conversation → Conversation) (prev : List Conversation) :
    (updateConversation cid f prev).length = prev.length ∧
    (∀ i : Nat, (updateConversation cid f prev)[i]? =
      (prev[i]?).map (fun c => if c.id = cid then f c else c)) ∧
    ((∀ c ∈ prev, c.id ≠ cid) → updateConversation cid f prev = prev) ∧
    ((∀ c, (f c).id = c.id) → ∀ b, ¬ b = cid →
      (updateConversation cid f prev).find? (fun c => c.id = b) =
        prev.find? (fun c => c.id = b)) := by
  refine ⟨by simp [updateConversation], fun i => ?_, fun h => ?_, fun hf b hb => ?_⟩
  · simp [updateConversation, List.getElem?_map]
  · calc updateConversation cid f prev
        = prev.map (fun x => x) := List.map_congr_left (fun x hx => by simp [h x hx])
      _ = prev := by simp
  · induction prev with
    | nil => rfl
    | cons d rest ih =>
        by_cases hd : d.id = cid
        · have h1 : ¬ (f d).id = b := by rw [hf d, hd]; exact fun h => hb h.symm
          have h2 : ¬ d.id = b := by rw [hd]; exact fun h => hb h.symm
          simp only [updateConversation, List.map_cons, if_pos hd] at *
          rw [List.find?_cons_of_neg _ (by simpa using h1),
            List.find?_cons_of_neg _ (by simpa using h2)]
          exact ih
        · simp only [updateConversation, List.map_cons, if_neg hd] at *
          by_cases hdb : d.id = b
          · rw [List.find?_cons_of_pos _ (by simpa using hdb),
              List.find?_cons_of_pos _ (by simpa using hdb)]
          · rw [List.find?_cons_of_neg _ (by simpa using hdb),
              List.find?_cons_of_neg _ (by simpa using hdb)]
            exact ih

/-- Witness for C8 at concrete inputs: mutating an absent id ("A" deleted) is
a no-op, and mutating "A" leaves the lookup of "B" untouched. -/
theorem updateConversation_frame_witness :
    updateConversation "A" (fun c => { c with title := "t" }) [wconvB] = [wconvB] ∧
    (updateConversation "A" (fun c => { c with messages := [] }) [wconvA, wconvB]).find?
        (fun c => c.id = "B") = [wconvA, wconvB].find? (fun c => c.id = "B") := by
  constructor
  · exact (updateConversation_frame "A" _ [wconvB]).2.2.1 (by decide)
  · exact (updateConversation_frame "A" _ [wconvA, wconvB]).2.2.2
      (fun c => rfl) "B" (by decide)

/-- C10: synchronizing the store from a fetched summary list yields one
record per payload item, whose summary fields (id, title, pin state,
timestamps, order) come from the payload, whose messages and attachments are
those previously loaded when the id was already present in the store, and
are empty when the id is new. -/
theorem syncConversations_preserves (payload : List BackendConversation)
    (prev : List Conversation)
    (hnodup : (prev.map (fun v => v.id)).Nodup) :
    (syncConversations payload prev).length = payload.length ∧
    (∀ (i : Nat) (item : BackendConversation), payload[i]? = some item →
      ∃ entry : Conversation, (syncConversations payload prev)[i]? = some entry ∧
        entry.id = toString item.id ∧
        entry.title = item.title ∧
        entry.isPinned = item.isPinned ∧
        entry.createdAt = item.createdAt ∧
        entry.lastUpdatedAt = item.lastUpdatedAt ∧
        entry.pinnedAt = item.pinnedAt ∧
        entry.pinnedOrder = item.pinnedOrder ∧
        (∀ c ∈ prev, c.id = toString item.id →
          entry.messages = c.messages ∧ entry.attachments = c.attachments) ∧
        ((∀ c ∈ prev, c.id ≠ toString item.id) →
          entry.messages = [] ∧ entry.attachments = [])) := by
  refine ⟨by simp [syncConversations], fun i item hi => ?_⟩
  refine ⟨normalizeConversation item (jsMapGet prev (toString item.id)), ?_,
    rfl, rfl, rfl, rfl, rfl, rfl, rfl, fun c hc hcid => ?_, fun h => ?_⟩
  · rw [syncConversations, List.getElem?_map, hi]; rfl
  · rw [jsMapGet_eq_some hnodup hc hcid]
    exact ⟨rfl, rfl⟩
  · rw [jsMapGet_eq_none h]
    exact ⟨rfl, rfl⟩

/-- Witness for C10 at concrete inputs: the id "7" already present keeps its
loaded messages while the summary fields are replaced. -/
theorem syncConversations_preserves_witness :
    (syncConversations [wbconv] [wconv7]).length = 1 ∧
    (∃ entry : Conversation, (syncConversations [wbconv] [wconv7])[0]? = some entry ∧
      entry.id = toString wbconv.id ∧
      entry.title = wbconv.title ∧
      entry.isPinned = wbconv.isPinned ∧
      entry.createdAt = wbconv.createdAt ∧
      entry.lastUpdatedAt = wbconv.lastUpdatedAt ∧
      entry.pinnedAt = wbconv.pinnedAt ∧
      entry.pinnedOrder = wbconv.pinnedOrder ∧
      (∀ c ∈ [wconv7], c.id = toString wbconv.id →
        entry.messages = c.messages ∧ entry.attachments = c.attachments) ∧
      ((∀ c ∈ [wconv7], c.id ≠ toString wbconv.id) →
        entry.messages = [] ∧ entry.attachments = [])) := by
  refine ⟨(syncConversations_preserves [wbconv] [wconv7] (by decide)).1, ?_⟩
  exact (syncConversations_preserves [wbconv] [wconv7] (by decide)).2 0 wbconv rfl

/-- C9: for every non-2xx response — whatever the body (valid JSON, plain
text, or unreadable) — `requestJson` produces a typed `ApiError` (never an
unhandled exception) whose `status` is the response's HTTP status and whose
message is the one `parseError` derives, always drawn from the JSON body's
`detail`/`message` field, the status text, or the raw text body; and a 204
no-content success returns `null`. -/
theorem requestJson_characterization (r : HttpResponse) :
    (responseOk r = false →
      ∃ e : ApiFailure, requestJson r = Except.error (ReqFailure.api e) ∧
        e.status = r.status ∧
        e.message = (parseError r).1 ∧
        (e.message = r.statusText ∨
          (∃ data, r.jsonBody = some data ∧
            (jStrField data "detail" = some e.message ∨
              jStrField data "message" = some e.message)) ∨
          r.textBody = some e.message)) ∧
    (responseOk r = true → r.status = 204 → requestJson r = Except.ok none) := by
  constructor
  · intro hok
    refine ⟨(⟨(parseError r).1, r.status, (parseError r).2⟩ : ApiFailure), ?_, rfl, rfl, ?_⟩
    · simp [requestJson, hok]
    · unfold parseError
      by_cases hct : jsIncludes (r.contentType.getD "") "application/json"
      · rw [if_pos hct]
        cases hjson : r.jsonBody with
        | none => exact Or.inl rfl
        | some data =>
            cases hdet : jStrField data "detail" with
            | some s => exact Or.inr (Or.inl ⟨data, rfl, Or.inl (by simp [hdet])⟩)
            | none =>
                cases hmsg : jStrField data "message" with
                | some s => exact Or.inr (Or.inl ⟨data, rfl, Or.inr (by simp [hdet, hmsg])⟩)
                | none => exact Or.inl (by simp [hdet, hmsg])
      · rw [if_neg hct]
        cases htext : r.textBody with
        | none => exact Or.inl rfl
        | some t =>
            by_cases hempty : t = ""
            · exact Or.inl (by simp [hempty])
            · exact Or.inr (Or.inr (by simp [hempty]))
  · intro hok h204
    simp [requestJson, hok, h204]

/-- Concrete error fixture: a 400 JSON body carrying a `detail` field. -/
def wrespErr : HttpResponse :=
  { status := 400, statusText := "Bad Request",
    contentType := some "application/json",
    jsonBody := some (JVal.obj [("detail", JVal.str "pin limit")]),
    textBody := none }

/-- Concrete 204 fixture. -/
def wrespNoContent : HttpResponse :=
  { status := 204, statusText := "No Content", contentType := none,
    jsonBody := none, textBody := none }

/-- Witness for C9 at concrete responses: a 400 with a JSON `detail` body
throws a typed failure with that status and message source, and a 204 returns
`null`. -/
theorem requestJson_characterization_witness :
    (∃ e : ApiFailure, requestJson wrespErr = Except.error (ReqFailure.api e) ∧
      e.status = wrespErr.status ∧
      e.message = (parseError wrespErr).1 ∧
      (e.message = wrespErr.statusText ∨
        (∃ data, wrespErr.jsonBody = some data ∧
          (jStrField data "detail" = some e.message ∨
            jStrField data "message" = some e.message)) ∨
        wrespErr.textBody = some e.message)) ∧
    requestJson wrespNoContent = Except.ok none := by
  constructor
  · exact (requestJson_characterization wrespErr).1 (by decide)
  · exact (requestJson_characterization wrespNoContent).2 (by decide) rfl

/-- C7: for a failing backend call, an optimistic rename and an optimistic
pin-toggle both restore the captured prior record — with duplicate-free ids
the store after the rejection equals the store before the action — and
surface exactly one toast; the distinguished pin-limit toast is chosen by the
failure's status code, independently of its message text. -/
theorem optimistic_rollback (conversations : List Conversation)
    (cid title : String) (now : Int) (e : ReqFailure) (c : Conversation)
    (hnodup : (conversations.map (fun v => v.id)).Nodup)
    (hmem : c ∈ conversations) (hid : c.id = cid)
    (htitle : ¬ jsTrimStr title = "") :
    handleRenameConversation conversations cid title (Except.error e) =
      (conversations, ["Failed to rename conversation."]) ∧
    handleTogglePin conversations cid now (Except.error e) =
      (conversations, [pinFailureToast e]) ∧
    (∀ a b : ApiFailure, a.status = b.status →
      pinFailureToast (ReqFailure.api a) = pinFailureToast (ReqFailure.api b)) := by
  have hfind : ∃ v, conversations.find? (fun item => item.id = cid) = some v := by
    rw [← Option.isSome_iff_exists, List.find?_isSome]
    exact ⟨c, hmem, by simp [hid]⟩
  obtain ⟨v, hv⟩ := hfind
  have hvmem : v ∈ conversations := List.mem_of_find?_eq_some hv
  have hvid : v.id = cid := by simpa using List.find?_some hv
  have hrestore : ∀ g : Conversation → Conversation, (∀ x, (g x).id = x.id) →
      updateConversation cid (fun _ => v)
        (updateConversation cid g conversations) = conversations := by
    intro g hg
    unfold updateConversation
    rw [List.map_map]
    calc conversations.map
          ((fun x => if x.id = cid then v else x) ∘
            (fun x => if x.id = cid then g x else x))
        = conversations.map (fun x => x) := by
          refine List.map_congr_left (fun x hx => ?_)
          rw [Function.comp_apply]
          by_cases hxid : x.id = cid
          · have hxv : x = v := conv_id_unique hnodup hvmem hx (by rw [hxid, hvid])
            have hgx : (g x).id = cid := by rw [hg x, hxid]
            rw [if_pos hxid, if_pos hgx]
            exact hxv.symm
          · rw [if_neg hxid, if_neg hxid]
      _ = conversations := by simp
  refine ⟨?_, ?_, fun a b h => by simp [pinFailureToast, h]⟩
  · unfold handleRenameConversation
    rw [if_neg htitle, hv]
    exact congrArg (fun l => (l, ["Failed to rename conversation."]))
      (hrestore (fun cc => { cc with title := jsTrimStr title }) (fun x => rfl))
  · unfold handleTogglePin
    rw [hv]
    exact congrArg (fun l => (l, [pinFailureToast e]))
      (hrestore _ (fun x => rfl))

/-- Witness for C7 at concrete inputs: a rejected rename of "A" leaves the
original title in place with one toast, and a rejected pin-toggle with a 400
status surfaces the distinguished pin-limit toast. -/
theorem optimistic_rollback_witness :
    handleRenameConversation [wconvA, wconvB] "A" "X"
        (Except.error (ReqFailure.api
          { message := "whatever", status := 400, details := ErrDetails.nullDetail })) =
      ([wconvA, wconvB], ["Failed to rename conversation."]) ∧
    handleTogglePin [wconvA, wconvB] "A" 99
        (Except.error (ReqFailure.api
          { message := "whatever", status := 400, details := ErrDetails.nullDetail })) =
      ([wconvA, wconvB], ["Max 5 pinned conversations"]) := by
  have h := optimistic_rollback [wconvA, wconvB] "A" "X" 99
    (ReqFailure.api { message := "whatever", status := 400, details := ErrDetails.nullDetail })
    wconvA (by decide) (by decide) (by decide) (by decide)
  exact ⟨h.1, h.2.1⟩

/-! ## SSE decoder lemmas -/

/-- Unfolding of `blocksOf` on a separator head. -/
theorem blocksOf_sep (rest : List Char) :
    blocksOf ('\n' :: '\n' :: rest) =
      ([] :: (blocksOf rest).1, (blocksOf rest).2) := rfl

/-- Unfolding of `blocksOf` on a single character. -/
theorem blocksOf_singleton (c : Char) : blocksOf [c] = ([], [c]) := by
  rw [blocksOf.eq_def]
  split
  · simp_all
  · rename_i heq
    injection heq with h1 h2
    simp at h2
  · rename_i x r heq
    injection heq with h1 h2
    subst h1
    subst h2
    rfl

/-- Unfolding of `blocksOf` on a non-separator head of length at least two. -/
theorem blocksOf_cons_cons (c c2 : Char) (rest : List Char)
    (hne : ¬ (c = '\n' ∧ c2 = '\n')) :
    blocksOf (c :: c2 :: rest) =
      (match (blocksOf (c2 :: rest)).1 with
       | [] => ([], c :: (blocksOf (c2 :: rest)).2)
       | h :: t => ((c :: h) :: t, (blocksOf (c2 :: rest)).2)) := by
  rw [blocksOf.eq_def]
  split
  · simp_all
  · rename_i heq
    injection heq with h1 h2
    injection h2 with h2a h2b
    exact absurd ⟨h1, h2a⟩ hne
  · rename_i x r heq
    injection heq with h1 h2
    subst h1
    subst h2
    rfl

/-- When no complete block was found, the remainder is the whole input. -/
theorem blocksOf_fst_eq_nil : ∀ (l : List Char),
    (blocksOf l).1 = [] → (blocksOf l).2 = l := by
  intro l
  induction l using blocksOf.induct with
  | case1 => intro _; rfl
  | case2 rest ih =>
      intro h
      exfalso
      simp [blocksOf] at h
  | case3 c rest hguard p hp ih =>
      intro _
      have hp2 : (blocksOf rest).1 = [] := hp
      simp only [blocksOf]
      rw [hp2]
      exact congrArg (fun t => c :: t) (ih hp2)
  | case4 c rest hguard p h t hpe ih =>
      intro hcontra
      exfalso
      have hpe2 : (blocksOf rest).1 = h :: t := hpe
      simp only [blocksOf] at hcontra
      rw [hpe2] at hcontra
      simp at hcontra

/-- Incremental block splitting composes: appending further bytes re-splits
only the held-back remainder. -/
theorem blocksOf_append : ∀ (a b : List Char),
    blocksOf (a ++ b) =
      ((blocksOf a).1 ++ (blocksOf ((blocksOf a).2 ++ b)).1,
        (blocksOf ((blocksOf a).2 ++ b)).2) := by
  intro a
  induction a using blocksOf.induct with
  | case1 =>
      intro b
      simp [blocksOf]
  | case2 rest ih =>
      intro b
      rw [List.cons_append, List.cons_append]
      rw [blocksOf_sep (rest ++ b), blocksOf_sep rest]
      rw [ih b]
      simp [List.cons_append]
  | case3 c rest hguard p hp ih =>
      intro b
      have hp2 : (blocksOf rest).1 = [] := hp
      have hrest : (blocksOf rest).2 = rest := blocksOf_fst_eq_nil rest hp2
      have ha : blocksOf (c :: rest) = ([], c :: rest) := by
        cases rest with
        | nil => exact blocksOf_singleton c
        | cons r0 rest0 =>
            rw [blocksOf_cons_cons c r0 rest0
              (fun hpair => hguard rest0 hpair.1 (by rw [hpair.2]))]
            rw [hp2, hrest]
      rw [List.cons_append, ha]
      simp
  | case4 c rest hguard p h t hpe ih =>
      intro b
      have hpe2 : (blocksOf rest).1 = h :: t := hpe
      obtain ⟨r0, rest0, hr⟩ : ∃ r0 rest0, rest = r0 :: rest0 := by
        cases rest with
        | nil => simp [blocksOf] at hpe2
        | cons r0 rest0 => exact ⟨r0, rest0, rfl⟩
      have hne : ¬ (c = '\n' ∧ r0 = '\n') := by
        intro hpair
        exact hguard rest0 hpair.1 (by rw [hr, hpair.2])
      have hca : blocksOf (c :: rest) = ((c :: h) :: t, (blocksOf rest).2) := by
        rw [hr, blocksOf_cons_cons c r0 rest0 (by rw [← hr] at *; exact hne)]
        rw [← hr, hpe2]
      have hcb : blocksOf (c :: (rest ++ b)) =
          ((c :: h) :: (t ++ (blocksOf ((blocksOf rest).2 ++ b)).1),
            (blocksOf ((blocksOf rest).2 ++ b)).2) := by
        rw [hr, List.cons_append, blocksOf_cons_cons c r0 (rest0 ++ b)
          (by rw [← hr] at *; exact hne)]
        rw [← List.cons_append, ← hr, ih b, hpe2]
        rfl
      rw [List.cons_append, hcb, hca]
      simp [List.cons_append]

/-- The held-back remainder contains no further separator. -/
theorem blocksOf_snd_fst_nil : ∀ (l : List Char),
    (blocksOf (blocksOf l).2).1 = [] := by
  intro l
  induction l using blocksOf.induct with
  | case1 => rfl
  | case2 rest ih =>
      rw [blocksOf_sep rest]
      exact ih
  | case3 c rest hguard p hp ih =>
      have hp2 : (blocksOf rest).1 = [] := hp
      have hrest : (blocksOf rest).2 = rest := blocksOf_fst_eq_nil rest hp2
      have ha : blocksOf (c :: rest) = ([], c :: rest) := by
        cases rest with
        | nil => exact blocksOf_singleton c
        | cons r0 rest0 =>
            rw [blocksOf_cons_cons c r0 rest0
              (fun hpair => hguard rest0 hpair.1 (by rw [hpair.2]))]
            rw [hp2, hrest]
      rw [ha, ha]
  | case4 c rest hguard p h t hpe ih =>
      have hpe2 : (blocksOf rest).1 = h :: t := hpe
      obtain ⟨r0, rest0, hr⟩ : ∃ r0 rest0, rest = r0 :: rest0 := by
        cases rest with
        | nil => simp [blocksOf] at hpe2
        | cons r0 rest0 => exact ⟨r0, rest0, rfl⟩
      have hne : ¬ (c = '\n' ∧ r0 = '\n') := by
        intro hpair
        exact hguard rest0 hpair.1 (by rw [hr, hpair.2])
      have hca : blocksOf (c :: rest) = ((c :: h) :: t, (blocksOf rest).2) := by
        rw [hr, blocksOf_cons_cons c r0 rest0 (by rw [← hr] at *; exact hne)]
        rw [← hr, hpe2]
      rw [hca]
      exact ih

/-- Unfolding of `splitBlocks` on a separator head. -/
theorem splitBlocks_sep (rest : List Char) :
    splitBlocks ('\n' :: '\n' :: rest) = [] :: splitBlocks rest := rfl

/-- Unfolding of `splitBlocks` on a single character. -/
theorem splitBlocks_singleton (c : Char) : splitBlocks [c] = [[c]] := by
  rw [splitBlocks.eq_def]
  split
  · simp_all
  · rename_i heq
    injection heq with h1 h2
    simp at h2
  · rename_i x r heq
    injection heq with h1 h2
    subst h1
    subst h2
    rfl

/-- Unfolding of `splitBlocks` on a non-separator head of length at least
two. -/
theorem splitBlocks_cons_cons (c c2 : Char) (rest : List Char)
    (hne : ¬ (c = '\n' ∧ c2 = '\n')) :
    splitBlocks (c :: c2 :: rest) =
      (match splitBlocks (c2 :: rest) with
       | [] => [[c]]
       | h :: t => (c :: h) :: t) := by
  rw [splitBlocks.eq_def]
  split
  · simp_all
  · rename_i heq
    injection heq with h1 h2
    injection h2 with h2a h2b
    exact absurd ⟨h1, h2a⟩ hne
  · rename_i x r heq
    injection heq with h1 h2
    subst h1
    subst h2
    rfl

/-- JavaScript `split` equals complete blocks plus the final remainder. -/
theorem splitBlocks_eq : ∀ (l : List Char),
    splitBlocks l = (blocksOf l).1 ++ [(blocksOf l).2] := by
  intro l
  induction l using blocksOf.induct with
  | case1 => rfl
  | case2 rest ih =>
      rw [splitBlocks_sep, ih, blocksOf_sep rest]
      rfl
  | case3 c rest hguard p hp ih =>
      have hp2 : (blocksOf rest).1 = [] := hp
      have hrest : (blocksOf rest).2 = rest := blocksOf_fst_eq_nil rest hp2
      have ha : blocksOf (c :: rest) = ([], c :: rest) := by
        cases rest with
        | nil => exact blocksOf_singleton c
        | cons r0 rest0 =>
            rw [blocksOf_cons_cons c r0 rest0
              (fun hpair => hguard rest0 hpair.1 (by rw [hpair.2]))]
            rw [hp2, hrest]
      have hs : splitBlocks (c :: rest) = [c :: rest] := by
        cases rest with
        | nil => exact splitBlocks_singleton c
        | cons r0 rest0 =>
            rw [splitBlocks_cons_cons c r0 rest0
              (fun hpair => hguard rest0 hpair.1 (by rw [hpair.2]))]
            rw [ih, hp2, hrest]
            rfl
      rw [hs, ha]
      rfl
  | case4 c rest hguard p h t hpe ih =>
      have hpe2 : (blocksOf rest).1 = h :: t := hpe
      obtain ⟨r0, rest0, hr⟩ : ∃ r0 rest0, rest = r0 :: rest0 := by
        cases rest with
        | nil => simp [blocksOf] at hpe2
        | cons r0 rest0 => exact ⟨r0, rest0, rfl⟩
      have hne : ¬ (c = '\n' ∧ r0 = '\n') := by
        intro hpair
        exact hguard rest0 hpair.1 (by rw [hr, hpair.2])
      have hca : blocksOf (c :: rest) = ((c :: h) :: t, (blocksOf rest).2) := by
        rw [hr, blocksOf_cons_cons c r0 rest0 (by rw [← hr] at *; exact hne)]
        rw [← hr, hpe2]
      have hs : splitBlocks (c :: rest) =
          (c :: h) :: (t ++ [(blocksOf rest).2]) := by
        rw [hr, splitBlocks_cons_cons c r0 rest0 (by rw [← hr] at *; exact hne)]
        rw [← hr, ih, hpe2]
        rfl
      rw [hs, hca]
      rfl

/-- `sseFeed` in terms of complete blocks and remainder. -/
theorem sseFeed_eq {J : Type} (parse : List Char → Option J)
    (st : SSEState J) (chunk : List Char) :
    sseFeed parse st chunk =
      ⟨(blocksOf (st.buffer ++ chunk)).2,
        st.events ++ ((blocksOf (st.buffer ++ chunk)).1).map (blockEvent parse)⟩ := by
  unfold sseFeed
  simp only [splitBlocks_eq, List.dropLast_concat, List.getLastD_concat]

/-- The read loop, from any reachable state, computes the blocks of the whole
remaining input. -/
theorem sseRun_foldl {J : Type} (parse : List Char → Option J) :
    ∀ (chunks : List (List Char)) (st : SSEState J),
      (blocksOf st.buffer).1 = [] →
      chunks.foldl (sseFeed parse) st =
        ⟨(blocksOf (st.buffer ++ chunks.flatten)).2,
          st.events ++ ((blocksOf (st.buffer ++ chunks.flatten)).1).map (blockEvent parse)⟩ := by
  intro chunks
  induction chunks with
  | nil =>
      intro st hst
      rw [List.foldl_nil, List.flatten_nil, List.append_nil, hst,
        blocksOf_fst_eq_nil st.buffer hst]
      cases st
      simp
  | cons chunk rest ih =>
      intro st hst
      rw [List.foldl_cons, sseFeed_eq, ih _ (blocksOf_snd_fst_nil (st.buffer ++ chunk))]
      rw [List.flatten_cons, ← List.append_assoc]
      rw [blocksOf_append (st.buffer ++ chunk) rest.flatten]
      simp [List.map_append]

/-- C5: the event-stream decoder is a pure function of the received byte
sequence: for every chunking of the input, the emitted events are exactly the
per-block decodings (event name from `event:` lines, default "message";
`data:` contents newline-joined, JSON-parsed when possible, else plain text)
of the complete blank-line-delimited blocks of the concatenated bytes, and
the held-back buffer is the final (incomplete) piece of the split — so
partial trailing bytes produce no event until more data arrives.  The two
concrete runs exercise a block split across chunks (with `event:` name and
JSON data) and a block without an `event:` line (default name, plain-text
data). -/
theorem streamSSE_decoding :
    (∀ (J : Type) (parse : List Char → Option J) (chunks : List (List Char)),
      (sseRun parse chunks).events = sseDecodeSpec parse chunks.flatten ∧
      (sseRun parse chunks).buffer = (splitBlocks chunks.flatten).getLastD []) ∧
    (sseRun (fun s => if s = ['7'] then some 7 else none)
        ["event: ping\nda".toList, "ta: 7\n\npartial".toList] : SSEState Nat).events =
      [⟨"ping".toList, SSEData.json 7⟩] ∧
    (sseRun (fun s => if s = ['7'] then some 7 else none)
        ["event: ping\nda".toList, "ta: 7\n\npartial".toList] : SSEState Nat).buffer =
      "partial".toList ∧
    (sseRun (fun s => if s = ['7'] then some 7 else none)
        ["data: x\n\n".toList] : SSEState Nat).events =
      [⟨"message".toList, SSEData.text ['x']⟩] := by
  refine ⟨fun J parse chunks => ?_, by decide, by decide, by decide⟩
  unfold sseRun
  rw [sseRun_foldl parse chunks ⟨[], []⟩ rfl]
  simp only [List.nil_append]
  exact ⟨by simp [sseDecodeSpec, splitBlocks_eq, List.dropLast_concat],
    by simp [splitBlocks_eq, List.getLastD_concat]⟩

/-! ## Conversation ordering (C6) -/

/-- Modelled from the spec's ordering words, for comparison with the code's
comparator: pinned conversations with an explicit `pinnedOrder` ascending,
conversations without one strictly after all that have one, ordered among
themselves by `pinnedAt` descending. -/
def specPinnedBefore (a b : Conversation) : Bool :=
  match a.pinnedOrder, b.pinnedOrder with
  | some x, some y => decide (x ≤ y)
  | some _, none => true
  | none, some _ => false
  | none, none => decide (timestamp b.pinnedAt ≤ timestamp a.pinnedAt)

/-- Modelled from the spec's ordering words: unpinned conversations by
`lastUpdatedAt` descending, ties broken by `createdAt` descending. -/
def specUnpinnedBefore (a b : Conversation) : Bool :=
  decide (b.lastUpdatedAt < a.lastUpdatedAt) ||
    (decide (a.lastUpdatedAt = b.lastUpdatedAt) && decide (b.createdAt ≤ a.createdAt))

/-- Pinned fixture whose explicit `pinnedOrder` equals the null sentinel. -/
def cexPinnedA : Conversation :=
  { id := "A", title := "a", messages := [], attachments := [], createdAt := 0,
    lastUpdatedAt := 0, isPinned := true, pinnedAt := none,
    pinnedOrder := some maxSafeInteger }

/-- Pinned fixture with no `pinnedOrder` but a later `pinnedAt`. -/
def cexPinnedB : Conversation :=
  { id := "B", title := "b", messages := [], attachments := [], createdAt := 0,
    lastUpdatedAt := 0, isPinned := true, pinnedAt := some 5,
    pinnedOrder := none }

/-- Counterexample to C6 as stated: a conversation whose explicit
`pinnedOrder` equals `Number.MAX_SAFE_INTEGER` ties with the `null`-order
sentinel, so the null-order conversation (with the later `pinnedAt`) sorts
before it — "null placed after all those that have one" fails. -/
theorem conversation_ordering_cex :
    sortPinnedConversations [cexPinnedA, cexPinnedB] = [cexPinnedB, cexPinnedA] ∧
    cexPinnedA.pinnedOrder = some maxSafeInteger ∧
    cexPinnedB.pinnedOrder = none ∧
    specPinnedBefore cexPinnedB cexPinnedA = false := by decide

/-- The code's pinned comparator is total. -/
theorem pinnedCmp_le_total (a b : Conversation) :
    pinnedCmp a b ≤ 0 ∨ pinnedCmp b a ≤ 0 := by
  simp only [pinnedCmp]
  split_ifs <;> omega

/-- The code's pinned comparator is transitive. -/
theorem pinnedCmp_le_trans (a b c : Conversation) :
    pinnedCmp a b ≤ 0 → pinnedCmp b c ≤ 0 → pinnedCmp a c ≤ 0 := by
  simp only [pinnedCmp]
  intro h1 h2
  split_ifs at h1 h2 ⊢ <;> omega

/-- Below the sentinel, the code's comparator implies the spec's pinned
order. -/
theorem pinnedCmp_le_spec {a b : Conversation}
    (hb : ∀ k : Int, b.pinnedOrder = some k → k < maxSafeInteger)
    (h : pinnedCmp a b ≤ 0) : specPinnedBefore a b = true := by
  unfold specPinnedBefore
  simp only [pinnedCmp] at h
  cases hao : a.pinnedOrder with
  | some x =>
      cases hbo : b.pinnedOrder with
      | some y =>
          rw [hao, hbo] at h
          simp only [Option.getD_some] at h
          simp only [decide_eq_true_eq]
          by_cases hxy : x = y
          · omega
          · rw [if_pos hxy] at h
            omega
      | none => rfl
  | none =>
      cases hbo : b.pinnedOrder with
      | some y =>
          exfalso
          have hy : y < maxSafeInteger := hb y hbo
          rw [hao, hbo] at h
          simp only [Option.getD_some, Option.getD_none] at h
          rw [if_pos (by omega : maxSafeInteger ≠ y)] at h
          omega
      | none =>
          rw [hao, hbo] at h
          simp only [Option.getD_none] at h
          rw [if_neg (by omega : ¬ maxSafeInteger ≠ maxSafeInteger)] at h
          simp only [decide_eq_true_eq]
          omega

/-- The code's unpinned comparator is total. -/
theorem unpinnedCmp_le_total (a b : Conversation) :
    unpinnedCmp a b ≤ 0 ∨ unpinnedCmp b a ≤ 0 := by
  simp only [unpinnedCmp]
  split_ifs <;> omega

/-- The code's unpinned comparator is transitive. -/
theorem unpinnedCmp_le_trans (a b c : Conversation) :
    unpinnedCmp a b ≤ 0 → unpinnedCmp b c ≤ 0 → unpinnedCmp a c ≤ 0 := by
  simp only [unpinnedCmp]
  intro h1 h2
  split_ifs at h1 h2 ⊢ <;> omega

/-- The code's unpinned comparator implies the spec's unpinned order. -/
theorem unpinnedCmp_le_spec {a b : Conversation}
    (h : unpinnedCmp a b ≤ 0) : specUnpinnedBefore a b = true := by
  simp only [unpinnedCmp] at h
  unfold specUnpinnedBefore
  simp only [Bool.or_eq_true, Bool.and_eq_true, decide_eq_true_eq]
  by_cases heq : b.lastUpdatedAt - a.lastUpdatedAt = 0
  · rw [if_neg (by omega)] at h
    exact Or.inr ⟨by omega, by omega⟩
  · rw [if_pos heq] at h
    exact Or.inl (by omega)

/-- Pinned fixtures for the spec's `[3, 1, 2, null]` example. -/
def pfix1 : Conversation :=
  { id := "p1", title := "", messages := [], attachments := [], createdAt := 0,
    lastUpdatedAt := 0, isPinned := true, pinnedAt := some 1, pinnedOrder := some 1 }

/-- Pinned fixture with order 2. -/
def pfix2 : Conversation :=
  { pfix1 with id := "p2", pinnedOrder := some 2 }

/-- Pinned fixture with order 3. -/
def pfix3 : Conversation :=
  { pfix1 with id := "p3", pinnedOrder := some 3 }

/-- Pinned fixture with null order. -/
def pfixN : Conversation :=
  { pfix1 with id := "pN", pinnedOrder := none, pinnedAt := some 9 }

/-- C6 amended: provided every explicit `pinnedOrder` is below the
`Number.MAX_SAFE_INTEGER` sentinel that the comparator substitutes for
`null`, the pinned list is sorted by `pinnedOrder` ascending with null-order
conversations after all explicitly ordered ones and among themselves by
`pinnedAt` descending, and is a permutation of the pinned records; the
unpinned list is (unconditionally) sorted by `lastUpdatedAt` descending with
`createdAt`-descending ties and is a permutation of the unpinned records;
and the spec's `[3, 1, 2, null]` example sorts to `[1, 2, 3, null]`. -/
theorem conversation_ordering_amended (l : List Conversation)
    (hbound : ∀ c ∈ l, ∀ k : Int, c.pinnedOrder = some k → k < maxSafeInteger) :
    List.Pairwise (fun a b => specPinnedBefore a b = true)
      (sortPinnedConversations l) ∧
    (sortPinnedConversations l).Perm
      (l.filter (fun c => c.isPinned)) ∧
    List.Pairwise (fun a b => specUnpinnedBefore a b = true)
      (sortUnpinnedConversations l) ∧
    (sortUnpinnedConversations l).Perm
      (l.filter (fun c => !c.isPinned)) ∧
    (sortPinnedConversations [pfix3, pfix1, pfix2, pfixN]).map (fun c => c.id) =
      ["p1", "p2", "p3", "pN"] := by
  have hmemP : ∀ x ∈ sortPinnedConversations l, x ∈ l := fun x hx =>
    (List.mem_filter.mp
      ((List.perm_insertionSort _ _).mem_iff.mp hx)).1
  refine ⟨?_, List.perm_insertionSort _ _, ?_, List.perm_insertionSort _ _, by decide⟩
  · haveI h1 : IsTotal Conversation (fun a b => pinnedCmp a b ≤ 0) := ⟨pinnedCmp_le_total⟩
    haveI h2 : IsTrans Conversation (fun a b => pinnedCmp a b ≤ 0) := ⟨pinnedCmp_le_trans⟩
    have hs := List.sorted_insertionSort (fun a b => pinnedCmp a b ≤ 0)
      (l.filter (fun c => c.isPinned))
    exact List.Pairwise.imp_of_mem
      (fun hma hmb hr => pinnedCmp_le_spec (hbound _ (hmemP _ hmb)) hr) hs
  · haveI h1 : IsTotal Conversation (fun a b => unpinnedCmp a b ≤ 0) := ⟨unpinnedCmp_le_total⟩
    haveI h2 : IsTrans Conversation (fun a b => unpinnedCmp a b ≤ 0) := ⟨unpinnedCmp_le_trans⟩
    have hs := List.sorted_insertionSort (fun a b => unpinnedCmp a b ≤ 0)
      (l.filter (fun c => !c.isPinned))
    exact List.Pairwise.imp_of_mem (fun _ _ hr => unpinnedCmp_le_spec hr) hs

/-- Witness for the amended C6 at the `[3, 1, 2, null]` fixtures. -/
theorem conversation_ordering_amended_witness :
    List.Pairwise (fun a b => specPinnedBefore a b = true)
      (sortPinnedConversations [pfix3, pfix1, pfix2, pfixN]) ∧
    (sortPinnedConversations [pfix3, pfix1, pfix2, pfixN]).Perm
      ([pfix3, pfix1, pfix2, pfixN].filter (fun c => c.isPinned)) := by
  have h := conversation_ordering_amended [pfix3, pfix1, pfix2, pfixN] (by
    intro c hc k hk
    simp only [List.mem_cons, List.not_mem_nil, or_false] at hc
    rcases hc with rfl | rfl | rfl | rfl <;>
      simp [pfix1, pfix2, pfix3, pfixN, maxSafeInteger] at hk ⊢ <;> omega)
  exact ⟨h.1, h.2.1⟩

/-! ## Session machine lemmas -/

/-- The conversation state with no messages and no active session. -/
def emptyConv : ConvState :=
  { messages := [], lastUpdatedAt := 0, streaming := none,
    abortRequested := false, hasController := false, toasts := [], calls := [] }

/-- One loop event never records a backend call. -/
theorem loopEventStep_calls (st : LoopState) (e : SEvent) :
    (loopEventStep st e).conv.calls = st.conv.calls := by
  cases e <;> simp only [loopEventStep] <;> (try split) <;> rfl

/-- Stopping never records a backend call. -/
theorem handleStopStreaming_calls (st : ConvState) (uuid : String) (now : Int) :
    (handleStopStreaming st uuid now).calls = st.calls := by
  simp only [handleStopStreaming]
  split_ifs <;> rfl

/-- The read loop records no backend calls. -/
theorem runLoop_calls : ∀ (steps : List SessStep) (ending : EndKind)
    (st : LoopState), (runLoop st steps ending).conv.calls = st.conv.calls := by
  intro steps
  induction steps with
  | nil =>
      intro ending st
      cases ending <;> rfl
  | cons s rest ih =>
      intro ending st
      cases s with
      | stop uuid now =>
          simp only [runLoop]
          rw [ih, handleStopStreaming_calls]
      | ev e =>
          simp only [runLoop]
          by_cases hab : st.conv.abortRequested
          · rw [if_pos (by simp [hab])]
          · rw [if_neg (by simp [hab])]
            cases e with
            | errorEvt m => rfl
            | statusEvt => rw [ih, loopEventStep_calls]
            | deltaEvt d => rw [ih, loopEventStep_calls]
            | finalEvt m => rw [ih, loopEventStep_calls]
            | otherEvt n => rw [ih, loopEventStep_calls]

/-- Shifting the accumulator through the string-join fold. -/
theorem string_foldl_append (l : List String) : ∀ (x y : String),
    l.foldl (fun a b => a ++ b) (x ++ y) = x ++ l.foldl (fun a b => a ++ b) y := by
  induction l with
  | nil => intro x y; rfl
  | cons d ds ih =>
      intro x y
      simp only [List.foldl_cons]
      rw [String.append_assoc, ih]

/-- `String.join` unfolds on cons. -/
theorem string_join_cons (d : String) (ds : List String) :
    String.join (d :: ds) = d ++ String.join ds := by
  show List.foldl (fun a b => a ++ b) ("" ++ d) ds = _
  rw [show ("" ++ d : String) = d ++ "" by simp]
  rw [string_foldl_append]
  rfl

/-- Consuming a prefix of delta events appends their concatenation, in
arrival order, to the accumulated content; nothing else changes. -/
theorem runLoop_delta_chain : ∀ (ds : List String) (st : LoopState)
    (acc : String) (more : List SessStep) (ending : EndKind),
    st.conv.abortRequested = false →
    st.conv.streaming = some acc →
    runLoop st ((ds.map (fun d => SessStep.ev (SEvent.deltaEvt (some d)))) ++ more) ending =
      runLoop { st with conv := { st.conv with streaming := some (acc ++ String.join ds) } }
        more ending := by
  intro ds
  induction ds with
  | nil =>
      intro st acc more ending hab hs
      have hjoin : acc ++ String.join [] = acc := by
        show acc ++ "" = acc
        simp
      rw [List.map_nil, List.nil_append, hjoin, ← hs]
  | cons d ds ih =>
      intro st acc more ending hab hs
      rw [List.map_cons, List.cons_append]
      simp only [runLoop]
      rw [if_neg (by simp [hab])]
      show runLoop (loopEventStep st (SEvent.deltaEvt (some d))) _ _ = _
      have hstep : loopEventStep st (SEvent.deltaEvt (some d)) =
          { st with conv := { st.conv with streaming := some (acc ++ d) } } := by
        simp only [loopEventStep]
        rw [hs]
        rfl
      rw [hstep]
      rw [ih _ (acc ++ d) more ending (by simp [hab]) rfl]
      rw [string_join_cons, ← String.append_assoc]

/-- Effect of the stop action on an active session with content `s`. -/
theorem handleStopStreaming_active (st : ConvState) (uuid : String)
    (now : Int) (s : String) (hs : st.streaming = some s) :
    handleStopStreaming st uuid now =
      { st with
        abortRequested := true,
        hasController := false,
        streaming := none,
        messages := st.messages ++
          (if jsTrimStr s = "" then [] else [stopAssistantMessage uuid s now]) } := by
  obtain ⟨msgs, lu, str, ar, hc, ts, ca⟩ := st
  simp only at hs
  subst hs
  simp only [handleStopStreaming, Option.getD_some]
  by_cases ht : jsTrimStr s = "" <;> by_cases hcc : hc <;>
    simp_all

/-- Record eta for `ConvState` under the aborted-session field values. -/
theorem convStateReplace (c : ConvState) (h1 : c.abortRequested = true)
    (h2 : c.streaming = none) (h3 : c.hasController = false) :
    ({ c with
      abortRequested := true,
      hasController := false,
      streaming := none } : ConvState) = c := by
  obtain ⟨msgs, lu, str2, ar, hc, ts2, ca⟩ := c
  cases ar with
  | false => exact absurd h1 (by simp)
  | true =>
      cases hc with
      | true => exact absurd h3 (by simp)
      | false =>
          cases str2 with
          | some s => exact absurd h2 (by simp)
          | none => rfl

/-- The stop handler on a conversation with no session entry only sets the
abort flag and drops the controller. -/
theorem handleStopStreaming_inactive (st : ConvState) (uuid : String)
    (now : Int) (hs : st.streaming = none) :
    handleStopStreaming st uuid now =
      { st with
        abortRequested := true,
        hasController := false,
        streaming := none } := by
  obtain ⟨msgs, lu, str2, ar, hc, ts2, ca⟩ := st
  simp only at hs
  subst hs
  simp only [handleStopStreaming, Option.getD_none]
  rw [if_neg (show ¬ jsTrimStr "" ≠ "" from fun h => h rfl)]
  cases hc with
  | true => rfl
  | false => rfl

/-- An `AbortError` rejection of an already-clean loop state only marks it
aborted. -/
theorem catchFailure_abort_eta (st : LoopState) (h2 : st.conv.streaming = none)
    (h4 : st.hadStreamError = false) :
    catchFailure st true = { st with wasAborted := true } := by
  obtain ⟨⟨msgs, lu, str2, ar, hc, ts2, ca⟩, fr, hse, wa⟩ := st
  cases hse with
  | true => exact absurd h4 (by simp)
  | false =>
      cases str2 with
      | some s => exact absurd h2 (by simp)
      | none => simp [catchFailure]

/-- After a recognized abort (flag set, session entry gone, controller gone,
no error so far), the rest of the run only marks the loop aborted: late
events are never applied, provided the ending is an abort rejection or at
least one further event arrives (which the flag check then intercepts). -/
theorem runLoop_after_abort : ∀ (late : List SessStep) (ending : EndKind)
    (st : LoopState),
    st.conv.abortRequested = true →
    st.conv.streaming = none →
    st.conv.hasController = false →
    st.hadStreamError = false →
    (ending = EndKind.abortSignal ∨ ∃ e, SessStep.ev e ∈ late) →
    runLoop st late ending = { st with wasAborted := true } := by
  intro late
  induction late with
  | nil =>
      intro ending st h1 h2 h3 h4 h5
      rcases h5 with rfl | ⟨e, he⟩
      · show catchFailure st true = _
        exact catchFailure_abort_eta st h2 h4
      · exact absurd he (List.not_mem_nil _)
  | cons s rest ih =>
      intro ending st h1 h2 h3 h4 h5
      cases s with
      | ev e =>
          simp only [runLoop]
          rw [if_pos (by simp [h1])]
      | stop uuid now =>
          simp only [runLoop]
          rw [handleStopStreaming_inactive st.conv uuid now h2,
            convStateReplace st.conv h1 h2 h3]
          refine ih ending st h1 h2 h3 h4 ?_
          rcases h5 with rfl | ⟨e, he⟩
          · exact Or.inl rfl
          · refine Or.inr ⟨e, ?_⟩
            rcases List.mem_cons.mp he with h | h
            · cases h
            · exact h

/-- The recovery block on the failure path: a first authoritative reload is
always issued; the non-streaming fallback is issued exactly when the reload
returned no more messages than existed before the send, and a successful
fallback is followed by one more reload. -/
theorem afterLoop_failure (st : LoopState) (previousCount : Nat)
    (reload1 : Except Unit (List BackendMessage))
    (fallback : Except Unit NonStreamingResult)
    (reload2 reload3 : Except Unit (List BackendMessage))
    (hfail : st.hadStreamError = true) (hnab : st.wasAborted = false) :
    (afterLoop st previousCount reload1 fallback reload2 reload3).calls =
      st.conv.calls ++ SessCall.reloadMessages ::
        (match reload1 with
         | .error _ => []
         | .ok latest =>
             if latest.length ≤ previousCount then
               SessCall.fallbackSend ::
                 (match fallback with
                  | .error _ => []
                  | .ok _ => [SessCall.reloadMessages])
             else []) ∧
    (∀ latest, reload1 = Except.ok latest → previousCount < latest.length →
      (afterLoop st previousCount reload1 fallback reload2 reload3).messages =
        latest.map normalizeMessage) := by
  obtain ⟨conv0, fr, hse, wa⟩ := st
  cases hse with
  | false => exact absurd hfail (by simp)
  | true =>
      cases wa with
      | true => exact absurd hnab (by simp)
      | false =>
          cases reload1 with
          | error u =>
              refine ⟨?_, fun latest h _ => absurd h (by simp)⟩
              cases fr <;> simp [afterLoop]
          | ok latest =>
              by_cases hlen : latest.length ≤ previousCount
              · refine ⟨?_, fun latest2 heq hgt => ?_⟩
                · cases fallback with
                  | error u => cases fr <;> simp [afterLoop, hlen]
                  | ok fb =>
                      cases reload2 with
                      | error u => cases fr <;> simp [afterLoop, hlen]
                      | ok l2 => cases fr <;> simp [afterLoop, hlen]
                · exfalso
                  have h2 : latest = latest2 := by simpa using heq
                  subst h2
                  omega
              · refine ⟨?_, fun latest2 heq hgt => ?_⟩
                · cases fr <;> simp [afterLoop, hlen]
                · have h2 : latest = latest2 := by simpa using heq
                  subst h2
                  cases fr <;> simp [afterLoop, hlen]

/-- The success path after the loop: exactly one reload is issued. -/
theorem afterLoop_success (st : LoopState) (previousCount : Nat)
    (reload1 : Except Unit (List BackendMessage))
    (fallback : Except Unit NonStreamingResult)
    (reload2 reload3 : Except Unit (List BackendMessage))
    (hfail : st.hadStreamError = false) (hnab : st.wasAborted = false) :
    (afterLoop st previousCount reload1 fallback reload2 reload3).calls =
      st.conv.calls ++ [SessCall.reloadMessages] := by
  obtain ⟨conv0, fr, hse, wa⟩ := st
  cases hse with
  | true => exact absurd hfail (by simp)
  | false =>
      cases wa with
      | true => exact absurd hnab (by simp)
      | false =>
          cases reload3 with
          | error u => cases fr <;> simp [afterLoop]
          | ok latest => cases fr <;> simp [afterLoop]

/-- The aborted path after the loop: the session entry and both per-id refs
are discarded, nothing else happens. -/
theorem afterLoop_aborted (st : LoopState) (previousCount : Nat)
    (reload1 : Except Unit (List BackendMessage))
    (fallback : Except Unit NonStreamingResult)
    (reload2 reload3 : Except Unit (List BackendMessage))
    (hab : st.wasAborted = true) (hfr : st.finalReceived = false) :
    afterLoop st previousCount reload1 fallback reload2 reload3 =
      { st.conv with
        streaming := none,
        hasController := false,
        abortRequested := false } := by
  obtain ⟨conv0, fr, hse, wa⟩ := st
  cases wa with
  | false => exact absurd hab (by simp)
  | true =>
      cases fr with
      | true => exact absurd hfr (by simp)
      | false => simp [afterLoop]

/-- Backend message fixture: a persisted user message. -/
def cexUserBackendMsg : BackendMessage :=
  { id := "s1", role := .user, content := "hi", createdAt := 0, useDocs := none,
    citations := none, evidence := none, meta := none, warning := none }

/-- Backend message fixture: a final assistant payload with citations and
evidence. -/
def wfinalMsg : BackendMessage :=
  { id := "a1", role := .assistant, content := "done", createdAt := 3,
    useDocs := some true,
    citations := some [{ attachmentId := Sum.inl 1, page := some 2 }],
    evidence := some [⟨Sum.inl 1, some 2, some "x", some "f", some 1⟩],
    meta := none, warning := none }

/-- Conversation fixture with an active streaming session. -/
def cexActiveConv : ConvState :=
  { emptyConv with streaming := some "Hel", hasController := true }

/-- Counterexample to C1 as stated.  Run A: the stream fails in transport and
the authoritative reload returns just the persisted user message — no new
assistant message exists, yet the fallback is not issued, because the code
compares total message counts, not assistant messages.  Run B: the stream
ends normally without `message.final` — the claim counts this as a failure,
but the code takes the success branch: one reload, never a fallback, even
though the reload returned nothing new. -/
theorem send_failure_recovery_cex :
    SessCall.fallbackSend ∉
      (handleSendStreaming emptyConv "hi" "u1" 0 [] EndKind.transportFailure
        (Except.ok [cexUserBackendMsg]) (Except.ok ⟨[], none⟩)
        (Except.ok []) (Except.ok [])).calls ∧
    List.countP (fun m => decide (m.role = Role.assistant)) [cexUserBackendMsg] =
      List.countP (fun m => decide (m.role = Role.assistant)) emptyConv.messages ∧
    SessCall.fallbackSend ∉
      (handleSendStreaming emptyConv "hi" "u1" 0 [] EndKind.normal
        (Except.ok []) (Except.ok ⟨[], none⟩) (Except.ok []) (Except.ok [])).calls ∧
    (handleSendStreaming emptyConv "hi" "u1" 0 [] EndKind.normal
        (Except.ok []) (Except.ok ⟨[], none⟩) (Except.ok []) (Except.ok [])).calls =
      [SessCall.reloadMessages] := by decide

/-- C1 amended: for every streaming send whose read loop ends with a thrown
failure (transport rejection or explicit `error` event) and was not
cancelled, the manager issues the authoritative reload and then the
non-streaming fallback (followed by one more reload when the fallback
succeeds) if and only if the reload returned no more messages **in total**
than existed before the send began; when the reload shows growth the store
is set to the reloaded list and no fallback is sent.  A stream that ends
without `message.final` but without throwing is not treated as a failure:
the manager only reloads. -/
theorem send_failure_recovery (conv : ConvState) (content uuid : String)
    (now : Int) (steps : List SessStep) (ending : EndKind)
    (reload1 : Except Unit (List BackendMessage))
    (fallback : Except Unit NonStreamingResult)
    (reload2 reload3 : Except Unit (List BackendMessage))
    (hne : ¬ jsTrimStr content = "") :
    ((runLoop (beginLoopState conv content uuid now) steps ending).hadStreamError = true →
      (runLoop (beginLoopState conv content uuid now) steps ending).wasAborted = false →
      (handleSendStreaming conv content uuid now steps ending
          reload1 fallback reload2 reload3).calls =
        conv.calls ++ SessCall.reloadMessages ::
          (match reload1 with
           | .error _ => []
           | .ok latest =>
               if latest.length ≤ conv.messages.length then
                 SessCall.fallbackSend ::
                   (match fallback with
                    | .error _ => []
                    | .ok _ => [SessCall.reloadMessages])
               else []) ∧
      (∀ latest, reload1 = Except.ok latest → conv.messages.length < latest.length →
        (handleSendStreaming conv content uuid now steps ending
            reload1 fallback reload2 reload3).messages =
          latest.map normalizeMessage)) ∧
    ((runLoop (beginLoopState conv content uuid now) steps ending).hadStreamError = false →
      (runLoop (beginLoopState conv content uuid now) steps ending).wasAborted = false →
      (handleSendStreaming conv content uuid now steps ending
          reload1 fallback reload2 reload3).calls =
        conv.calls ++ [SessCall.reloadMessages]) := by
  constructor
  · intro hfail hnab
    have h := afterLoop_failure
      (runLoop (beginLoopState conv content uuid now) steps ending)
      conv.messages.length reload1 fallback reload2 reload3 hfail hnab
    have hcalls : (runLoop (beginLoopState conv content uuid now) steps ending).conv.calls =
        conv.calls := runLoop_calls steps ending _
    rw [hcalls] at h
    unfold handleSendStreaming
    rw [if_neg hne]
    exact h
  · intro hfail hnab
    have h := afterLoop_success
      (runLoop (beginLoopState conv content uuid now) steps ending)
      conv.messages.length reload1 fallback reload2 reload3 hfail hnab
    have hcalls : (runLoop (beginLoopState conv content uuid now) steps ending).conv.calls =
        conv.calls := runLoop_calls steps ending _
    rw [hcalls] at h
    unfold handleSendStreaming
    rw [if_neg hne]
    exact h

/-- Witness for the amended C1: a transport failure after an empty
conversation triggers reload, fallback, reload. -/
theorem send_failure_recovery_witness :
    (handleSendStreaming emptyConv "hi" "u1" 0 [] EndKind.transportFailure
        (Except.ok []) (Except.ok ⟨[], none⟩) (Except.ok []) (Except.ok [])).calls =
      [SessCall.reloadMessages, SessCall.fallbackSend, SessCall.reloadMessages] := by
  have h := ((send_failure_recovery emptyConv "hi" "u1" 0 [] EndKind.transportFailure
    (Except.ok []) (Except.ok ⟨[], none⟩) (Except.ok []) (Except.ok [])
    (by decide)).1 (by decide) (by decide)).1
  exact h.trans (by decide)

/-- Counterexample to C2 as stated: a send begun against a conversation whose
session has accumulated "Hel" is not a no-op — the accumulated content is
reset to empty. -/
theorem second_send_unguarded_cex :
    (sendBegin cexActiveConv "again" "u2" 1).streaming = some "" ∧
    ¬ (sendBegin cexActiveConv "again" "u2" 1).streaming = cexActiveConv.streaming ∧
    ¬ sendBegin cexActiveConv "again" "u2" 1 = cexActiveConv := by decide

/-- C2 amended: the manager performs no guard against an active session — a
further send proceeds unconditionally, resetting the session entry to empty
content, appending another optimistic user message, clearing the abort flag
and replacing the cancellation handle; indeed the whole streaming send is
insensitive to whatever session entry previously existed.  At-most-one
session per conversation is ensured only by the UI disabling the send action
while streaming. -/
theorem second_send_resets_session (conv : ConvState) (s content uuid : String)
    (now : Int) (steps : List SessStep) (ending : EndKind)
    (reload1 : Except Unit (List BackendMessage))
    (fallback : Except Unit NonStreamingResult)
    (reload2 reload3 : Except Unit (List BackendMessage))
    (hactive : conv.streaming = some s)
    (hne : ¬ jsTrimStr content = "") :
    (sendBegin conv (jsTrimStr content) uuid now).streaming = some "" ∧
    (sendBegin conv (jsTrimStr content) uuid now).messages =
      conv.messages ++ [optimisticUserMessage uuid (jsTrimStr content) now] ∧
    (sendBegin conv (jsTrimStr content) uuid now).abortRequested = false ∧
    (sendBegin conv (jsTrimStr content) uuid now).hasController = true ∧
    (∀ s2 : Option String,
      handleSendStreaming { conv with streaming := s2 } content uuid now steps ending
          reload1 fallback reload2 reload3 =
        handleSendStreaming conv content uuid now steps ending
          reload1 fallback reload2 reload3) := by
  refine ⟨rfl, rfl, rfl, rfl, fun s2 => ?_⟩
  unfold handleSendStreaming
  rw [if_neg hne, if_neg hne]
  rfl

/-- Witness for the amended C2 at a conversation with accumulated content
"Hel". -/
theorem second_send_resets_session_witness :
    (sendBegin cexActiveConv (jsTrimStr "again") "u2" 1).streaming = some "" ∧
    (sendBegin cexActiveConv (jsTrimStr "again") "u2" 1).messages =
      cexActiveConv.messages ++ [optimisticUserMessage "u2" (jsTrimStr "again") 1] := by
  have h := second_send_resets_session cexActiveConv "Hel" "again" "u2" 1 []
    EndKind.normal (Except.ok []) (Except.ok ⟨[], none⟩) (Except.ok [])
    (Except.ok []) rfl (by decide)
  exact ⟨h.1, h.2.1⟩

/-- C3: within one session, delta events accumulate append-only in arrival
order — after any delta sequence the session content is exactly its in-order
concatenation — and a `message.final` event appends exactly one new
assistant message, carrying the final payload's id, content, citations and
evidence, then discards the session entry. -/
theorem streaming_accumulation (conv : ConvState) (content uuid : String)
    (now : Int) (ds : List String) (m : BackendMessage) :
    (runLoop (beginLoopState conv content uuid now)
        (ds.map (fun d => SessStep.ev (SEvent.deltaEvt (some d))))
        EndKind.normal).conv.streaming = some (String.join ds) ∧
    (runLoop (beginLoopState conv content uuid now)
        ((ds.map (fun d => SessStep.ev (SEvent.deltaEvt (some d)))) ++
          [SessStep.ev (SEvent.finalEvt m)]) EndKind.normal).conv.messages =
      conv.messages ++
        [optimisticUserMessage uuid (jsTrimStr content) now, normalizeMessage m] ∧
    (runLoop (beginLoopState conv content uuid now)
        ((ds.map (fun d => SessStep.ev (SEvent.deltaEvt (some d)))) ++
          [SessStep.ev (SEvent.finalEvt m)]) EndKind.normal).conv.streaming = none ∧
    (runLoop (beginLoopState conv content uuid now)
        ((ds.map (fun d => SessStep.ev (SEvent.deltaEvt (some d)))) ++
          [SessStep.ev (SEvent.finalEvt m)]) EndKind.normal).finalReceived = true ∧
    (normalizeMessage m).id = some m.id ∧
    (normalizeMessage m).content = m.content ∧
    (∀ cs, m.citations = some cs → (normalizeMessage m).citations = some cs) ∧
    (∀ es, m.evidence = some es → (normalizeMessage m).evidence = some es) := by
  have hpre := runLoop_delta_chain ds (beginLoopState conv content uuid now) ""
    [] EndKind.normal rfl rfl
  rw [List.append_nil] at hpre
  have hfull := runLoop_delta_chain ds (beginLoopState conv content uuid now) ""
    [SessStep.ev (SEvent.finalEvt m)] EndKind.normal rfl rfl
  refine ⟨?_, ?_, ?_, ?_, rfl, rfl, fun cs hcs => ?_, fun es hes => ?_⟩
  · rw [hpre]
    show some ("" ++ String.join ds) = some (String.join ds)
    simp
  · rw [hfull]
    show ((beginLoopState conv content uuid now).conv.messages ++ [normalizeMessage m]) = _
    show ((conv.messages ++ [optimisticUserMessage uuid (jsTrimStr content) now]) ++
      [normalizeMessage m]) = _
    simp [List.append_assoc]
  · rw [hfull]
    rfl
  · rw [hfull]
    rfl
  · simp [normalizeMessage, hcs]
  · simp [normalizeMessage, hes]

/-- Witness for C3: the spec's `["Hel", "lo, ", "world"]` example accumulates
to "Hello, world", and finalization appends the payload with citations and
evidence intact. -/
theorem streaming_accumulation_witness :
    (runLoop (beginLoopState emptyConv "Hi" "u1" 0)
        (["Hel", "lo, ", "world"].map (fun d => SessStep.ev (SEvent.deltaEvt (some d))))
        EndKind.normal).conv.streaming = some "Hello, world" ∧
    (runLoop (beginLoopState emptyConv "Hi" "u1" 0)
        ((["Hel", "lo, ", "world"].map (fun d => SessStep.ev (SEvent.deltaEvt (some d)))) ++
          [SessStep.ev (SEvent.finalEvt wfinalMsg)]) EndKind.normal).conv.messages =
      [optimisticUserMessage "u1" "Hi" 0, normalizeMessage wfinalMsg] ∧
    (normalizeMessage wfinalMsg).citations =
      some [{ attachmentId := Sum.inl 1, page := some 2 }] ∧
    (normalizeMessage wfinalMsg).evidence =
      some [⟨Sum.inl 1, some 2, some "x", some "f", some 1⟩] := by
  have h := streaming_accumulation emptyConv "Hi" "u1" 0 ["Hel", "lo, ", "world"] wfinalMsg
  refine ⟨h.1.trans (by decide), h.2.1.trans (by decide),
    h.2.2.2.2.2.2.1 _ rfl, h.2.2.2.2.2.2.2 _ rfl⟩

/-- Counterexample to C4 as stated: a whitespace-only accumulated partial
(" ") is non-empty, yet the stop action commits no assistant message,
because the code tests the trimmed partial. -/
theorem stop_commits_partial_cex :
    (handleSendStreaming emptyConv "hi" "u1" 0
        [SessStep.ev (SEvent.deltaEvt (some " ")), SessStep.stop "u2" 1]
        EndKind.abortSignal (Except.ok []) (Except.ok ⟨[], none⟩)
        (Except.ok []) (Except.ok [])).messages =
      [optimisticUserMessage "u1" "hi" 0] ∧
    (runLoop (beginLoopState emptyConv "hi" "u1" 0)
        [SessStep.ev (SEvent.deltaEvt (some " "))] EndKind.normal).conv.streaming =
      some " " ∧
    ¬ (" " : String) = "" := by decide

/-- C4 amended: a session stopped by an explicit user stop before
`message.final` commits the accumulated partial as exactly one new final
assistant message if and only if the partial is non-whitespace (non-empty
after trimming) — the committed content is the untrimmed partial; no late
event after the stop is ever applied, the session entry, abort flag and
controller are discarded, and no reload and no fallback send occur (the
hypothesis on the ending reflects fetch cancellation semantics: after
`abort()` a pending read rejects with `AbortError`, so a non-abort
transport failure cannot be the step observed after the stop unless a
further event arrives first). -/
theorem stop_commits_partial (conv : ConvState) (content uuid : String)
    (now : Int) (ds : List String) (uuid2 : String) (now2 : Int)
    (late : List SessStep) (ending : EndKind)
    (reload1 : Except Unit (List BackendMessage))
    (fallback : Except Unit NonStreamingResult)
    (reload2 reload3 : Except Unit (List BackendMessage))
    (hne : ¬ jsTrimStr content = "")
    (hend : ending = EndKind.abortSignal ∨ ∃ e, SessStep.ev e ∈ late) :
    handleSendStreaming conv content uuid now
        ((ds.map (fun d => SessStep.ev (SEvent.deltaEvt (some d)))) ++
          SessStep.stop uuid2 now2 :: late) ending reload1 fallback reload2 reload3 =
      { conv with
        messages := conv.messages ++ optimisticUserMessage uuid (jsTrimStr content) now ::
          (if jsTrimStr (String.join ds) = "" then []
           else [stopAssistantMessage uuid2 (String.join ds) now2]),
        lastUpdatedAt := now,
        streaming := none,
        abortRequested := false,
        hasController := false } := by
  unfold handleSendStreaming
  rw [if_neg hne]
  rw [runLoop_delta_chain ds (beginLoopState conv content uuid now) ""
    (SessStep.stop uuid2 now2 :: late) ending rfl rfl]
  simp only [runLoop]
  rw [handleStopStreaming_active _ uuid2 now2 ("" ++ String.join ds) rfl]
  rw [runLoop_after_abort late ending _ rfl rfl rfl rfl hend]
  rw [afterLoop_aborted _ _ reload1 fallback reload2 reload3 rfl rfl]
  have hj : ("" ++ String.join ds : String) = String.join ds := by simp
  simp only [hj]
  show ({ conv with
    messages := (conv.messages ++ [optimisticUserMessage uuid (jsTrimStr content) now]) ++
      (if jsTrimStr (String.join ds) = "" then []
       else [stopAssistantMessage uuid2 (String.join ds) now2]),
    lastUpdatedAt := now,
    streaming := none,
    abortRequested := false,
    hasController := false } : ConvState) = _
  simp [List.append_assoc]

/-- Witness for the amended C4: the spec's `["Par", "tial"]` example commits
one assistant message with content "Partial" and performs no reload and no
fallback. -/
theorem stop_commits_partial_witness :
    handleSendStreaming emptyConv "hi" "u1" 0
        [SessStep.ev (SEvent.deltaEvt (some "Par")),
          SessStep.ev (SEvent.deltaEvt (some "tial")), SessStep.stop "u2" 1]
        EndKind.abortSignal (Except.ok []) (Except.ok ⟨[], none⟩)
        (Except.ok []) (Except.ok []) =
      { emptyConv with
        messages := [optimisticUserMessage "u1" "hi" 0,
          stopAssistantMessage "u2" "Partial" 1],
        streaming := none,
        abortRequested := false,
        hasController := false } := by
  have h := stop_commits_partial emptyConv "hi" "u1" 0 ["Par", "tial"] "u2" 1 []
    EndKind.abortSignal (Except.ok []) (Except.ok ⟨[], none⟩) (Except.ok [])
    (Except.ok []) (by decide) (Or.inl rfl)
  exact h.trans (by decide)
